import Mathlib

/-!
Verification development for the spond-payment-reporting repository.

The payment-reconciliation engine (`report.py`: `PaymentReportGenerator.process_payment_data`,
`generate_excel_report`) and the query adapter (`mcp_server.py`: `SpondMCPServer`) are
shallowly embedded below.  Python dicts flowing between the two modules are modelled by
association lists of `PyVal` so that key-based access (`dict.get`) keeps its exact
Python semantics, including defaults for absent keys.  Monetary amounts are embedded
as rationals (`Rat`): the Python code only ever divides integer pence by 100, which is
exact.  The fallible detail fetch (`api_client.get_payment_details`, which may raise)
is embedded as a function into `Option PaymentDetail`, `none` meaning "raised".
-/

/-- Python scalar values that appear in the row dictionaries built by `report.py`
and read back by `mcp_server.py`.  `PyVal.noneV` models Python's `None`. -/
inductive PyVal where
  | str : String → PyVal
  | num : Rat → PyVal
  | noneV : PyVal
deriving DecidableEq, Repr

/-- Python `d.get(key, default)` on an insertion-ordered dict modelled as an
association list. -/
def dictGet (d : List (String × PyVal)) (key : String) (dflt : PyVal) : PyVal :=
  match d with
  | [] => dflt
  | (k, v) :: rest => if k = key then v else dictGet rest key dflt

/-- Python `float(v)` as used in `mcp_server.py`; all reachable call sites pass a
number (possibly the integer default `0`). -/
def pyvalToFloat (v : PyVal) : Rat :=
  match v with
  | PyVal.num q => q
  | _ => 0

/-- Extraction of the string payload; all reachable call sites in `mcp_server.py`
apply it to a value that is a string (possibly a string default). -/
def pyvalToStr (v : PyVal) : String :=
  match v with
  | PyVal.str s => s
  | _ => ""

/-- Python `s.lower()`, as a map over the character list. -/
def lowerStr (s : String) : String := String.mk (s.data.map Char.toLower)

/-- Helper for `containsLst`: does the first list start the second? -/
def isPrefixLst : List Char → List Char → Bool
  | [], _ => true
  | _ :: _, [] => false
  | a :: as, b :: bs => a = b && isPrefixLst as bs

/-- Substring occurrence on character lists (Python's `needle in haystack`). -/
def containsLst : List Char → List Char → Bool
  | n, [] => n.isEmpty
  | n, c :: t => isPrefixLst n (c :: t) || containsLst n t

/-- Python `needle in haystack` on strings. -/
def pyContains (needle haystack : String) : Bool :=
  containsLst needle.data haystack.data

/-! Data model of the upstream payloads, following the dictionary shapes that
`process_payment_data` reads (`report.py`, lines 39-85).  Fields read with a
bare `.get(k)` are `Option`s; fields read with a default are stored raw and the
default is applied at the read site, mirroring the Python. -/

/-- One entry of `claims[i].products`; `price` read via `.get('price', 0)`. -/
structure Product where
  price : Option Int
deriving DecidableEq, Repr

/-- One entry of `recipient['claims']`; `products` read via `.get('products', [])`. -/
structure ClaimRec where
  products : List Product
deriving DecidableEq, Repr

/-- One entry of `details['recipients']`. -/
structure Recipient where
  status : String            -- `recipient.get('status', '')`
  memberId : Option String   -- `recipient.get('memberId')`
  currency : Option String   -- `recipient.get('currency', 'GBP')`, default at read site
  claims : List ClaimRec     -- `recipient.get('claims', [])`
deriving DecidableEq, Repr

/-- Result of a successful `api_client.get_payment_details` call. -/
structure PaymentDetail where
  recipients : List Recipient   -- `details.get('recipients', [])`
deriving DecidableEq, Repr

/-- One entry of the payments list. -/
structure Payment where
  id : Option String      -- `payment.get('id')`
  title : Option String   -- `payment.get('title', 'Unnamed Payment')`
deriving DecidableEq, Repr

/-- Python `payment.get('title', 'Unnamed Payment')` (`report.py` line 41). -/
def paymentTitleOf (p : Payment) : String := p.title.getD "Unnamed Payment"

/-- Title-filter gate of `report.py` lines 44-48.  `Option.none` models passing
`title_filters=None`; `Option.some []` is Python's empty list, which is falsy, so
the filter block is skipped. -/
def passesTitleFilters (title_filters : Option (List String)) (name : String) : Bool :=
  match title_filters with
  | Option.none => true
  | Option.some [] => true
  | Option.some fs => fs.all fun t => pyContains (lowerStr t) (lowerStr name)

/-- Name resolution `member_map.get(member_id, f"Unknown (...)")` (`report.py`
line 64); Python renders a `None` id as the string `None` inside the placeholder. -/
def memberNameFor (member_map : List (String × String)) (memberId : Option String) : String :=
  match memberId with
  | Option.some mid =>
    match member_map.lookup mid with
    | Option.some n => n
    | Option.none => "Unknown (" ++ mid ++ ")"
  | Option.none => "Unknown (None)"

/-- Amount extraction of `report.py` lines 67-72: the first claim's first
product's `price`, each level defaulting to nothing/zero when absent. -/
def extractAmountPence (r : Recipient) : Int :=
  match r.claims with
  | [] => 0
  | c :: _ =>
    match c.products with
    | [] => 0
    | pr :: _ => pr.price.getD 0

/-- One row of the flat ledger (the dict literal of `report.py` lines 77-85,
as a structure; `LedgerRow.toDict` below restores the exact dict). -/
structure LedgerRow where
  memberName : String
  memberId : Option String
  paymentName : String
  paymentId : Option String
  amountOwed : Rat
  currency : String
  status : String
deriving DecidableEq, Repr

/-- Construction of one ledger row from an unpaid recipient (`report.py`
lines 62-85): `amount = amount_pence / 100.0`, `currency` defaults to `'GBP'`. -/
def mkRow (member_map : List (String × String)) (payment_name : String)
    (payment_id : Option String) (r : Recipient) : LedgerRow :=
  { memberName := memberNameFor member_map r.memberId
    memberId := r.memberId
    paymentName := payment_name
    paymentId := payment_id
    amountOwed := (extractAmountPence r : Rat) / 100
    currency := r.currency.getD "GBP"
    status := r.status }

/-- The recipient loop of `report.py` lines 57-85: each recipient whose status
is exactly `UNANSWERED` yields one row, every other status is skipped. -/
def unpaidRows (member_map : List (String × String)) (payment_name : String)
    (payment_id : Option String) (recipients : List Recipient) : List LedgerRow :=
  (recipients.filter fun r => r.status == "UNANSWERED").map
    (mkRow member_map payment_name payment_id)

/-- Accumulator of the payment loop of `process_payment_data`: the granular
rows and the three loop counters. -/
structure RunAcc where
  rows : List LedgerRow
  filtered : Nat
  processed : Nat
  withUnpaid : Nat
deriving DecidableEq, Repr

/-- The payment loop of `report.py` lines 39-93.  A payment failing the title
filter increments `filtered` and is skipped before any fetch; a fetch raising
(`Option.none`) is caught and skipped leaving the accumulator untouched;
otherwise `processed` increments, the unpaid rows are appended, and
`withUnpaid` increments when at least one row was produced. -/
def processAux (member_map : List (String × String))
    (fetch : Option String → Option PaymentDetail)
    (title_filters : Option (List String)) : List Payment → RunAcc
  | [] => ⟨[], 0, 0, 0⟩
  | p :: ps =>
    let rest := processAux member_map fetch title_filters ps
    if passesTitleFilters title_filters (paymentTitleOf p) then
      match fetch p.id with
      | Option.some details =>
        let newRows := unpaidRows member_map (paymentTitleOf p) p.id details.recipients
        ⟨newRows ++ rest.rows, rest.filtered, rest.processed + 1,
         if 0 < newRows.length then rest.withUnpaid + 1 else rest.withUnpaid⟩
      | Option.none => rest
    else ⟨rest.rows, rest.filtered + 1, rest.processed, rest.withUnpaid⟩

/-- The `summary_stats` dict of `report.py` lines 95-102. -/
structure SummaryStats where
  total_payments_found : Nat
  filtered_payments : Nat
  total_payments_processed : Nat
  payments_with_unpaid : Nat
  total_unpaid_items : Nat
  title_filters : Option (List String)
deriving DecidableEq, Repr

/-- `PaymentReportGenerator.process_payment_data` (`report.py` lines 16-104):
returns the flat ledger and the run statistics. -/
def process_payment_data (payments : List Payment)
    (member_map : List (String × String))
    (fetch : Option String → Option PaymentDetail)
    (title_filters : Option (List String) := Option.none) :
    List LedgerRow × SummaryStats :=
  let acc := processAux member_map fetch title_filters payments
  (acc.rows,
   { total_payments_found := payments.length
     filtered_payments := acc.filtered
     total_payments_processed := acc.processed
     payments_with_unpaid := acc.withUnpaid
     total_unpaid_items := acc.rows.length
     title_filters := title_filters })

/-! Embedding of the member aggregation of `generate_excel_report`
(`report.py` lines 128-131):
`df.groupby(['Member Name', 'Member ID', 'Currency'], as_index=False)['Amount Owed'].sum()`
followed by `sort_values(by='Amount Owed', ascending=False)`.
The pandas `groupby` default `sort=True` emits the groups in ascending order of
their key tuples; the subsequent descending sort is modelled with a stable
merge sort. -/

/-- Grouping key used by the `groupby` call. -/
def rowKey (r : LedgerRow) : String × Option String × String :=
  (r.memberName, r.memberId, r.currency)

/-- Character comparison by code point. -/
def charLtB (a b : Char) : Bool := a.val < b.val

/-- Lexicographic strict order on character lists. -/
def lstLt : List Char → List Char → Bool
  | _, [] => false
  | [], _ :: _ => true
  | a :: as, b :: bs => charLtB a b || (a = b && lstLt as bs)

/-- Lexicographic strict order on strings. -/
def pyStrLt (a b : String) : Bool := lstLt a.data b.data

/-- Comparison on optional strings used inside the key order (kept total for
convenience; the `none` branches are unreachable once the groupby has dropped
the NA-keyed rows). -/
def optStrLe (a b : Option String) : Bool :=
  match a, b with
  | Option.none, _ => true
  | Option.some _, Option.none => false
  | Option.some x, Option.some y => !pyStrLt y x

/-- Lexicographic order on group keys, modelling pandas' ascending key sort. -/
def keyLe (a b : String × Option String × String) : Bool :=
  pyStrLt a.1 b.1 || (a.1 = b.1 &&
    ((a.2.1 ≠ b.2.1 && optStrLe a.2.1 b.2.1) || (a.2.1 = b.2.1 && !pyStrLt b.2.2 a.2.2)))

/-- Stable insertion into a list sorted by `le`: the new element lands after
every earlier element it does not have to precede. -/
def insertStable (le : α → α → Bool) (x : α) : List α → List α
  | [] => [x]
  | y :: ys => if le y x then y :: insertStable le x ys else x :: y :: ys

/-- Stable sort by `le` (insertion sort): ties keep their input order. -/
def sortStable (le : α → α → Bool) (l : List α) : List α :=
  l.foldl (fun acc x => insertStable le x acc) []

/-- One row of the `Summary` sheet. -/
structure MemberSummary where
  memberName : String
  memberId : Option String
  currency : String
  amountOwed : Rat
deriving DecidableEq, Repr

/-- The aggregation of `report.py` lines 128-131: pandas
`groupby(['Member Name', 'Member ID', 'Currency'], as_index=False)` followed by
`['Amount Owed'].sum()` and `sort_values(by='Amount Owed', ascending=False)`.
The groupby's default `dropna=True` silently drops every row whose group key
holds an NA; in these rows only `Member ID` can be `None` (the name and the
currency columns are always strings), so rows without a member id vanish from
the summary and their amounts are lost.  The surviving groups are emitted in
ascending key order (default `sort=True`), summed, then sorted descending by
the summed amount (stable model of the final sort). -/
def summarizeByMember (rows : List LedgerRow) : List MemberSummary :=
  let kept := rows.filter fun r => r.memberId.isSome
  let keys := sortStable keyLe (kept.map rowKey).dedup
  let grouped := keys.map fun k =>
    ({ memberName := k.1, memberId := k.2.1, currency := k.2.2
       amountOwed := ((kept.filter fun r => rowKey r = k).map (·.amountOwed)).sum } : MemberSummary)
  sortStable (fun a b => b.amountOwed ≤ a.amountOwed) grouped

/-! Embedding of the query adapter `mcp_server.py`.  The adapter consumes the
ledger rows through Python `dict.get` calls, so the exact dict produced by
`report.py` lines 77-85 is restored first. -/

/-- The dict literal of `report.py` lines 77-85 for one ledger row. -/
def LedgerRow.toDict (r : LedgerRow) : List (String × PyVal) :=
  [("Member Name", PyVal.str r.memberName),
   ("Member ID", (r.memberId.map PyVal.str).getD PyVal.noneV),
   ("Payment Name", PyVal.str r.paymentName),
   ("Payment ID", (r.paymentId.map PyVal.str).getD PyVal.noneV),
   ("Amount Owed", PyVal.num r.amountOwed),
   ("Currency", PyVal.str r.currency),
   ("Status", PyVal.str r.status)]

/-- Python `round(x, 2)` on the rationals that stand in for floats (Python's
float rounding differs on exact halves, which no claim exercises). -/
def pyRound2 (q : Rat) : Rat := ((round (q * 100) : Int) : Rat) / 100

/-- The per-payment-type grouping of `mcp_server.py` lines 170-186, in
first-seen order: key `payment.get('Payment Title', 'Unknown')`, accumulating
a count and `float(payment.get('Amount', 0))` per key. -/
def buildPaymentTypes (rows : List LedgerRow) : List (String × Nat × Rat) :=
  rows.foldl
    (fun acc row =>
      let pt := pyvalToStr (dictGet row.toDict "Payment Title" (PyVal.str "Unknown"))
      let amt := pyvalToFloat (dictGet row.toDict "Amount" (PyVal.num 0))
      if (acc.map Prod.fst).contains pt then
        acc.map fun e => if e.1 = pt then (e.1, e.2.1 + 1, e.2.2 + amt) else e
      else acc ++ [(pt, 1, amt)])
    []

/-- Result of `SpondMCPServer.get_member_payment_summary` (the API-ready
paths of `mcp_server.py` lines 125-193). -/
inductive MemberSummaryResult where
  | err_no_match (member_name : String) (available_members : List String)
  | err_multiple (member_name : String) (matching_members : List String)
  | no_payments (member_name : String)
  | ok (member_name : String) (total_owed : Rat) (outstanding_payments_count : Nat)
      (payment_types : List (String × Nat × Rat))
deriving DecidableEq, Repr

/-- `SpondMCPServer.get_member_payment_summary` (`mcp_server.py` lines 120-193):
case-insensitive substring match over the member map, error branches for zero
and for several matches, otherwise reconciliation filtered to the member's id,
summing `float(payment.get('Amount', 0))` over the member's rows. -/
def get_member_payment_summary (member_map : List (String × String))
    (payments : List Payment) (fetch : Option String → Option PaymentDetail)
    (member_name : String) : MemberSummaryResult :=
  let matching := member_map.filter fun m =>
    pyContains (lowerStr member_name) (lowerStr m.2)
  match matching with
  | [] => MemberSummaryResult.err_no_match member_name ((member_map.map Prod.snd).take 10)
  | (member_id, full_name) :: rest =>
    if 0 < rest.length then
      MemberSummaryResult.err_multiple member_name (full_name :: rest.map Prod.snd)
    else
      let granular_rows := (process_payment_data payments member_map fetch).1
      let member_payments := granular_rows.filter fun row =>
        dictGet row.toDict "Member ID" PyVal.noneV = PyVal.str member_id
      if member_payments.isEmpty then
        MemberSummaryResult.no_payments full_name
      else
        let total_owed := (member_payments.map fun row =>
          pyvalToFloat (dictGet row.toDict "Amount" (PyVal.num 0))).sum
        MemberSummaryResult.ok full_name (pyRound2 total_owed) member_payments.length
          (buildPaymentTypes member_payments)

/-- The formatted-output dict of `mcp_server.py` lines 230-236 for one row. -/
def formatRow (r : LedgerRow) : List (String × PyVal) :=
  [("member_name", dictGet r.toDict "Member Name" PyVal.noneV),
   ("payment_title", dictGet r.toDict "Payment Title" PyVal.noneV),
   ("amount", dictGet r.toDict "Amount" PyVal.noneV),
   ("due_date", dictGet r.toDict "Due Date" PyVal.noneV),
   ("description", dictGet r.toDict "Description" (PyVal.str ""))]

/-- Result of `SpondMCPServer.get_all_outstanding_payments` (success path). -/
structure OutstandingResult where
  outstanding_payments : List (List (String × PyVal))
  total_count : Nat
  truncated : Bool
deriving DecidableEq, Repr

/-- The post-reconciliation part of `get_all_outstanding_payments`
(`mcp_server.py` lines 212-244): optional single-term title filter over
`row.get('Payment Title', '')`, truncation to `limit` when `limit` is truthy
and exceeded, then formatting.  `limit = 0` models Python's falsy limit. -/
def outstandingFromRows (rows : List LedgerRow) (title_filter : Option String)
    (limit : Nat) : OutstandingResult :=
  let rows := match title_filter with
    | Option.none => rows
    | Option.some tf =>
      if tf = "" then rows
      else rows.filter fun row =>
        pyContains (lowerStr tf)
          (lowerStr (pyvalToStr (dictGet row.toDict "Payment Title" (PyVal.str ""))))
  let (rows, truncated) :=
    if 0 < limit ∧ limit < rows.length then (rows.take limit, true) else (rows, false)
  { outstanding_payments := rows.map formatRow
    total_count := (rows.map formatRow).length
    truncated := truncated }

/-- `SpondMCPServer.get_all_outstanding_payments` (`mcp_server.py` lines
200-244, success path): reconciliation with no engine-level filters, then the
adapter-level filter/truncate/format step. -/
def get_all_outstanding_payments (member_map : List (String × String))
    (payments : List Payment) (fetch : Option String → Option PaymentDetail)
    (title_filter : Option String) (limit : Nat) : OutstandingResult :=
  outstandingFromRows (process_payment_data payments member_map fetch).1 title_filter limit

/-- `SpondMCPServer.search_members` (`mcp_server.py` lines 316-339, success
path): case-insensitive substring filter over the member map, returning the
matches and their count. -/
def search_members (member_map : List (String × String)) (query : String) :
    List (String × String) × Nat :=
  let matching := member_map.filter fun m => pyContains (lowerStr query) (lowerStr m.2)
  (matching, matching.length)

/-! Helper lemmas about the reconciliation loop. -/

lemma unpaidRows_length (mm : List (String × String)) (pn : String)
    (pid : Option String) (recs : List Recipient) :
    (unpaidRows mm pn pid recs).length
      = (recs.filter fun r => r.status == "UNANSWERED").length := by
  simp [unpaidRows]

lemma unpaidRows_status (mm : List (String × String)) (pn : String)
    (pid : Option String) (recs : List Recipient) :
    ∀ row ∈ unpaidRows mm pn pid recs, row.status = "UNANSWERED" := by
  intro row hrow
  simp only [unpaidRows, List.mem_map, List.mem_filter] at hrow
  obtain ⟨r, ⟨_, hst⟩, rfl⟩ := hrow
  have hs : r.status = "UNANSWERED" := by simpa using hst
  simpa [mkRow] using hs

/-- Modelled from the spec: the summand of the sentence "The flat ledger length
equals the sum, over all processed payments, of recipients whose status is
UNANSWERED" — the COUNT of UNANSWERED recipients of one payment, zero when the
payment is filtered out or its detail fetch fails. -/
def specUnansweredCount (fetch : Option String → Option PaymentDetail)
    (title_filters : Option (List String)) (p : Payment) : Nat :=
  if passesTitleFilters title_filters (paymentTitleOf p) then
    match fetch p.id with
    | Option.some d => (d.recipients.filter fun r => r.status == "UNANSWERED").length
    | Option.none => 0
  else 0

lemma processAux_rows_length (mm : List (String × String))
    (fetch : Option String → Option PaymentDetail) (tf : Option (List String)) :
    ∀ ps : List Payment,
      (processAux mm fetch tf ps).rows.length = (ps.map (specUnansweredCount fetch tf)).sum := by
  intro ps
  induction ps with
  | nil => simp [processAux]
  | cons p ps ih =>
    simp only [processAux, List.map_cons, List.sum_cons, specUnansweredCount]
    by_cases hpass : passesTitleFilters tf (paymentTitleOf p)
    · simp only [hpass, if_true]
      cases hf : fetch p.id with
      | none => simpa [hf] using ih
      | some d => simp [hf, ih, unpaidRows_length]
    · simp [hpass, ih]

lemma processAux_rows_status (mm : List (String × String))
    (fetch : Option String → Option PaymentDetail) (tf : Option (List String)) :
    ∀ ps : List Payment, ∀ row ∈ (processAux mm fetch tf ps).rows, row.status = "UNANSWERED" := by
  intro ps
  induction ps with
  | nil => simp [processAux]
  | cons p ps ih =>
    intro row hrow
    simp only [processAux] at hrow
    by_cases hpass : passesTitleFilters tf (paymentTitleOf p)
    · simp only [hpass, if_true] at hrow
      cases hf : fetch p.id with
      | none => exact ih row (by simpa [hf] using hrow)
      | some d =>
        simp only [hf, List.mem_append] at hrow
        rcases hrow with hnew | hold
        · exact unpaidRows_status mm (paymentTitleOf p) p.id d.recipients row hnew
        · exact ih row hold
    · simp only [hpass, if_false] at hrow
      exact ih row hrow

/-- C1: in the ledger returned by `process_payment_data`, rows arise exactly
from UNANSWERED recipients of successfully fetched, unfiltered payments: every
ledger row carries status `UNANSWERED`, the `total_unpaid_items` statistic is
the ledger length, and the ledger length is the sum over all payments of the
number of UNANSWERED recipients in their successfully fetched details. -/
theorem C1_ledger_rows_iff_unanswered (payments : List Payment)
    (mm : List (String × String)) (fetch : Option String → Option PaymentDetail)
    (tf : Option (List String)) :
    (∀ row ∈ (process_payment_data payments mm fetch tf).1, row.status = "UNANSWERED")
    ∧ (process_payment_data payments mm fetch tf).2.total_unpaid_items
        = (process_payment_data payments mm fetch tf).1.length
    ∧ (process_payment_data payments mm fetch tf).1.length
        = (payments.map (specUnansweredCount fetch tf)).sum := by
  refine ⟨?_, rfl, ?_⟩
  · exact fun row h => processAux_rows_status mm fetch tf payments row h
  · exact processAux_rows_length mm fetch tf payments

/-- Modelled from the spec: the amount rule of §3, "the owed amount is read
from the first claim's first product's `price` field ... divided by 100 ...
Missing claims/products/price yield an amount of zero". -/
def specAmountOwed (r : Recipient) : Rat :=
  match r.claims with
  | [] => 0
  | c :: _ =>
    match c.products with
    | [] => 0
    | pr :: _ =>
      match pr.price with
      | Option.none => 0
      | Option.some v => (v : Rat) / 100

/-- C2: the amount owed of every ledger row equals the first claim's first
product's `price` divided by 100, with every missing level yielding exactly 0;
in particular price 2500 yields 25 and an empty claims list yields 0. -/
theorem C2_amount_extraction :
    (∀ (mm : List (String × String)) (pn : String) (pid : Option String) (r : Recipient),
      (mkRow mm pn pid r).amountOwed = specAmountOwed r)
    ∧ (mkRow [] "t" Option.none
        ⟨"UNANSWERED", Option.none, Option.none,
          [⟨[⟨Option.some 2500⟩]⟩]⟩).amountOwed = 25
    ∧ (mkRow [] "t" Option.none
        ⟨"UNANSWERED", Option.none, Option.none, []⟩).amountOwed = 0 := by
  refine ⟨?_, ?_, ?_⟩
  · intro mm pn pid r
    obtain ⟨st, mid, cur, claims⟩ := r
    simp only [mkRow, specAmountOwed, extractAmountPence]
    cases claims with
    | nil => norm_num
    | cons c cs =>
      obtain ⟨products⟩ := c
      cases products with
      | nil => norm_num
      | cons pr prs =>
        obtain ⟨price⟩ := pr
        cases price with
        | none => norm_num
        | some v => norm_num
  · simp [mkRow, extractAmountPence]
    norm_num
  · simp [mkRow, extractAmountPence]

/-! Helper lemmas for the title filter and the failure-skip behaviour. -/

lemma passesTitleFilters_some (fs : List String) (n : String) :
    passesTitleFilters (Option.some fs) n
      = fs.all fun t => pyContains (lowerStr t) (lowerStr n) := by
  cases fs <;> simp [passesTitleFilters]

lemma processAux_some_eq_filter (mm : List (String × String))
    (fetch : Option String → Option PaymentDetail) (fs : List String) :
    ∀ ps : List Payment,
      processAux mm fetch (Option.some fs) ps
        = { rows := (processAux mm fetch Option.none
              (ps.filter fun p => passesTitleFilters (Option.some fs) (paymentTitleOf p))).rows
            filtered := (ps.filter fun p =>
              !(passesTitleFilters (Option.some fs) (paymentTitleOf p))).length
            processed := (processAux mm fetch Option.none
              (ps.filter fun p => passesTitleFilters (Option.some fs) (paymentTitleOf p))).processed
            withUnpaid := (processAux mm fetch Option.none
              (ps.filter fun p => passesTitleFilters (Option.some fs) (paymentTitleOf p))).withUnpaid } := by
  intro ps
  induction ps with
  | nil => simp [processAux]
  | cons p ps ih =>
    by_cases hp : passesTitleFilters (Option.some fs) (paymentTitleOf p) = true
    · simp only [List.filter_cons, hp, if_true, Bool.not_true, if_false]
      simp only [processAux, hp, if_true, ih]
      cases hf : fetch p.id with
      | none => simp [passesTitleFilters]
      | some d => simp [passesTitleFilters]
    · have hp' : passesTitleFilters (Option.some fs) (paymentTitleOf p) = false := by
        simpa using hp
      simp only [List.filter_cons, hp', Bool.not_false, if_true, Bool.false_eq_true, if_false]
      simp only [processAux, hp', Bool.false_eq_true, if_false, ih]
      simp

lemma processAux_fetch_congr (mm : List (String × String)) (tf : Option (List String))
    (f g : Option String → Option PaymentDetail) :
    ∀ ps : List Payment,
      (∀ p ∈ ps, passesTitleFilters tf (paymentTitleOf p) = true → f p.id = g p.id) →
      processAux mm f tf ps = processAux mm g tf ps := by
  intro ps
  induction ps with
  | nil => intro _; rfl
  | cons p ps ih =>
    intro h
    have hps := ih fun q hq => h q (List.mem_cons_of_mem p hq)
    by_cases hp : passesTitleFilters tf (paymentTitleOf p) = true
    · simp only [processAux, hps, hp, if_true, h p (List.mem_cons_self p ps) hp]
    · have hp' : passesTitleFilters tf (paymentTitleOf p) = false := by simpa using hp
      simp only [processAux, hps, hp', Bool.false_eq_true, if_false]

/-- C3: with a non-empty title-filter list, the engine's ledger is the ledger
of exactly those payments whose lower-cased title contains every lower-cased
filter term (AND semantics); every excluded payment counts once in
`filtered_payments`; the whole run result only depends on the fetcher's
behaviour at payments that pass the filter (excluded payments are never
fetched); and the spec's two examples hold. -/
theorem C3_title_filters_and (payments : List Payment) (mm : List (String × String))
    (fetch fetch' : Option String → Option PaymentDetail) (fs : List String)
    (_hfs : fs ≠ [])
    (hagree : ∀ p ∈ payments,
      (fs.all fun t => pyContains (lowerStr t) (lowerStr (paymentTitleOf p))) = true →
      fetch p.id = fetch' p.id) :
    (process_payment_data payments mm fetch (Option.some fs)).1
      = (process_payment_data
          (payments.filter fun p =>
            fs.all fun t => pyContains (lowerStr t) (lowerStr (paymentTitleOf p)))
          mm fetch Option.none).1
    ∧ (process_payment_data payments mm fetch (Option.some fs)).2.filtered_payments
      = (payments.filter fun p =>
          !(fs.all fun t => pyContains (lowerStr t) (lowerStr (paymentTitleOf p)))).length
    ∧ process_payment_data payments mm fetch (Option.some fs)
      = process_payment_data payments mm fetch' (Option.some fs)
    ∧ passesTitleFilters (Option.some ["Match", "2025"]) "Match Fee 2025 Spring" = true
    ∧ passesTitleFilters (Option.some ["Match", "2025"]) "Match Fee 2024" = false := by
  refine ⟨?_, ?_, ?_, by decide, by decide⟩
  · simp only [process_payment_data, processAux_some_eq_filter, passesTitleFilters_some]
  · simp only [process_payment_data, processAux_some_eq_filter, passesTitleFilters_some]
  · have h := processAux_fetch_congr mm (Option.some fs) fetch fetch' payments
      (by simpa only [passesTitleFilters_some] using hagree)
    simp only [process_payment_data, h]

lemma processAux_skip_failed (mm : List (String × String))
    (fetch : Option String → Option PaymentDetail) (tf : Option (List String))
    (p : Payment) (hpass : passesTitleFilters tf (paymentTitleOf p) = true)
    (hfail : fetch p.id = Option.none) :
    ∀ ps1 ps2 : List Payment,
      processAux mm fetch tf (ps1 ++ p :: ps2) = processAux mm fetch tf (ps1 ++ ps2) := by
  intro ps1 ps2
  induction ps1 with
  | nil => simp [processAux, hpass, hfail]
  | cons q qs ih => simp only [List.cons_append, processAux, List.append_eq, ih]

/-- C4: a payment whose detail fetch raises contributes nothing: dropping it
from the input leaves the ledger, `total_payments_processed`,
`payments_with_unpaid`, `filtered_payments` and `total_unpaid_items`
unchanged, so the surrounding payments' rows are untouched and the run
continues. -/
theorem C4_failed_fetch_skipped (mm : List (String × String))
    (fetch : Option String → Option PaymentDetail) (tf : Option (List String))
    (ps1 ps2 : List Payment) (p : Payment)
    (hpass : passesTitleFilters tf (paymentTitleOf p) = true)
    (hfail : fetch p.id = Option.none) :
    (process_payment_data (ps1 ++ p :: ps2) mm fetch tf).1
      = (process_payment_data (ps1 ++ ps2) mm fetch tf).1
    ∧ (process_payment_data (ps1 ++ p :: ps2) mm fetch tf).2.total_payments_processed
      = (process_payment_data (ps1 ++ ps2) mm fetch tf).2.total_payments_processed
    ∧ (process_payment_data (ps1 ++ p :: ps2) mm fetch tf).2.payments_with_unpaid
      = (process_payment_data (ps1 ++ ps2) mm fetch tf).2.payments_with_unpaid
    ∧ (process_payment_data (ps1 ++ p :: ps2) mm fetch tf).2.filtered_payments
      = (process_payment_data (ps1 ++ ps2) mm fetch tf).2.filtered_payments
    ∧ (process_payment_data (ps1 ++ p :: ps2) mm fetch tf).2.total_unpaid_items
      = (process_payment_data (ps1 ++ ps2) mm fetch tf).2.total_unpaid_items := by
  have h := processAux_skip_failed mm fetch tf p hpass hfail ps1 ps2
  simp [process_payment_data, h]

/-! Concrete fixtures shared by the witnesses and counterexamples. -/

/-- A fetcher standing in for an API client whose every call raises. -/
def noFetch : Option String → Option PaymentDetail := fun _ => Option.none

/-- A detail with a single unpaid recipient and no claims. -/
def goodDetail : PaymentDetail :=
  ⟨[⟨"UNANSWERED", Option.some "123", Option.none, []⟩]⟩

/-- A payment whose detail fetch succeeds under `fetchC4`. -/
def payGood : Payment := ⟨Option.some "ok", Option.some "Training Fee"⟩

/-- A payment whose detail fetch raises under `fetchC4`. -/
def payBad : Payment := ⟨Option.some "bad", Option.some "Match Fee"⟩

/-- A fetcher that succeeds on `payGood` and raises on everything else. -/
def fetchC4 : Option String → Option PaymentDetail :=
  fun i => if i = Option.some "ok" then Option.some goodDetail else Option.none

/-- Witness for C3 at a concrete non-empty filter list. -/
theorem C3_title_filters_and_witness :
    (process_payment_data [payGood, payBad] [] fetchC4 (Option.some ["fee"])).1
      = (process_payment_data
          ([payGood, payBad].filter fun p =>
            ["fee"].all fun t => pyContains (lowerStr t) (lowerStr (paymentTitleOf p)))
          [] fetchC4 Option.none).1
    ∧ (process_payment_data [payGood, payBad] [] fetchC4 (Option.some ["fee"])).2.filtered_payments
      = ([payGood, payBad].filter fun p =>
          !(["fee"].all fun t => pyContains (lowerStr t) (lowerStr (paymentTitleOf p)))).length
    ∧ process_payment_data [payGood, payBad] [] fetchC4 (Option.some ["fee"])
      = process_payment_data [payGood, payBad] [] fetchC4 (Option.some ["fee"])
    ∧ passesTitleFilters (Option.some ["Match", "2025"]) "Match Fee 2025 Spring" = true
    ∧ passesTitleFilters (Option.some ["Match", "2025"]) "Match Fee 2024" = false :=
  C3_title_filters_and [payGood, payBad] [] fetchC4 fetchC4 ["fee"]
    (by decide) (fun _ _ _ => rfl)

/-- Witness for C4: the failing `payBad` sits between two processed payments
and drops out without disturbing them. -/
theorem C4_failed_fetch_skipped_witness :
    (process_payment_data ([payGood] ++ payBad :: [payGood]) [] fetchC4 Option.none).1
      = (process_payment_data ([payGood] ++ [payGood]) [] fetchC4 Option.none).1
    ∧ (process_payment_data ([payGood] ++ payBad :: [payGood]) [] fetchC4 Option.none).2.total_payments_processed
      = (process_payment_data ([payGood] ++ [payGood]) [] fetchC4 Option.none).2.total_payments_processed
    ∧ (process_payment_data ([payGood] ++ payBad :: [payGood]) [] fetchC4 Option.none).2.payments_with_unpaid
      = (process_payment_data ([payGood] ++ [payGood]) [] fetchC4 Option.none).2.payments_with_unpaid
    ∧ (process_payment_data ([payGood] ++ payBad :: [payGood]) [] fetchC4 Option.none).2.filtered_payments
      = (process_payment_data ([payGood] ++ [payGood]) [] fetchC4 Option.none).2.filtered_payments
    ∧ (process_payment_data ([payGood] ++ payBad :: [payGood]) [] fetchC4 Option.none).2.total_unpaid_items
      = (process_payment_data ([payGood] ++ [payGood]) [] fetchC4 Option.none).2.total_unpaid_items :=
  C4_failed_fetch_skipped [] fetchC4 Option.none [payGood] [payGood] payBad
    rfl (by decide)

/-! Lemmas about the stable insertion sort used to model the pandas sorts. -/

lemma mem_insertStable (le : α → α → Bool) (x : α) (l : List α) (z : α) :
    z ∈ insertStable le x l ↔ z = x ∨ z ∈ l := by
  induction l with
  | nil => simp [insertStable]
  | cons y ys ih =>
    by_cases h : le y x = true
    · simp only [insertStable, h, if_true, List.mem_cons, ih]
      tauto
    · simp only [insertStable, h, List.mem_cons]
      simp

lemma insertStable_perm (le : α → α → Bool) (x : α) (l : List α) :
    (insertStable le x l).Perm (x :: l) := by
  induction l with
  | nil => simp [insertStable]
  | cons y ys ih =>
    by_cases h : le y x = true
    · simp only [insertStable, h, if_true]
      exact (ih.cons y).trans (List.Perm.swap x y ys)
    · simp [insertStable, h]

lemma foldl_insertStable_perm (le : α → α → Bool) :
    ∀ (l acc : List α),
      (l.foldl (fun acc x => insertStable le x acc) acc).Perm (acc ++ l) := by
  intro l
  induction l with
  | nil => intro acc; simp
  | cons x xs ih =>
    intro acc
    have h1 := ih (insertStable le x acc)
    have h2 : (insertStable le x acc ++ xs).Perm (acc ++ x :: xs) := by
      refine ((insertStable_perm le x acc).append_right xs).trans ?_
      simpa using (@List.perm_middle _ x acc xs).symm
    simpa using h1.trans h2

lemma sortStable_perm (le : α → α → Bool) (l : List α) :
    (sortStable le l).Perm l := by
  simpa [sortStable] using foldl_insertStable_perm le l []

lemma pairwise_insertStable (le : α → α → Bool)
    (htot : ∀ a b, (le a b || le b a) = true)
    (htrans : ∀ a b c, le a b = true → le b c = true → le a c = true)
    (x : α) (l : List α) (hl : l.Pairwise fun a b => le a b = true) :
    (insertStable le x l).Pairwise fun a b => le a b = true := by
  induction l with
  | nil => simp [insertStable]
  | cons y ys ih =>
    rcases List.pairwise_cons.mp hl with ⟨hy, hys⟩
    by_cases h : le y x = true
    · simp only [insertStable, h, if_true]
      refine List.pairwise_cons.mpr ⟨?_, ih hys⟩
      intro z hz
      rcases (mem_insertStable le x ys z).mp hz with rfl | hzys
      · exact h
      · exact hy z hzys
    · have hxy : le x y = true := by
        rcases Bool.or_eq_true_iff.mp (htot y x) with h' | h'
        · exact absurd h' h
        · exact h'
      simp only [insertStable, h, if_false]
      refine List.pairwise_cons.mpr ⟨?_, hl⟩
      intro z hz
      rcases List.mem_cons.mp hz with rfl | hzys
      · exact hxy
      · exact htrans x y z hxy (hy z hzys)

lemma sortStable_pairwise (le : α → α → Bool)
    (htot : ∀ a b, (le a b || le b a) = true)
    (htrans : ∀ a b c, le a b = true → le b c = true → le a c = true)
    (l : List α) :
    (sortStable le l).Pairwise fun a b => le a b = true := by
  suffices h : ∀ (l acc : List α), acc.Pairwise (fun a b => le a b = true) →
      (l.foldl (fun acc x => insertStable le x acc) acc).Pairwise fun a b => le a b = true by
    exact h l [] (by simp)
  intro l
  induction l with
  | nil => intro acc hacc; simpa using hacc
  | cons x xs ih =>
    intro acc hacc
    exact ih (insertStable le x acc) (pairwise_insertStable le htot htrans x acc hacc)

/-! Partition lemmas used for the conservation part of the aggregation. -/

lemma sum_map_ite {κ : Type} [DecidableEq κ] (k0 : κ) (x : Rat) (g : κ → Rat) :
    ∀ ks : List κ, ks.Nodup → k0 ∈ ks →
      (ks.map fun k => if k0 = k then x + g k else g k).sum = x + (ks.map g).sum := by
  intro ks
  induction ks with
  | nil => intro _ h; simp at h
  | cons k ks ih =>
    intro hnd hmem
    rcases List.nodup_cons.mp hnd with ⟨hk, hnd'⟩
    rcases List.mem_cons.mp hmem with rfl | hmem'
    · have hrest : (ks.map fun k' => if k0 = k' then x + g k' else g k').sum
          = (ks.map g).sum := by
        refine congrArg List.sum (List.map_congr_left fun a ha => ?_)
        have hne : k0 ≠ a := fun h => hk (h ▸ ha)
        simp [hne]
      simp only [List.map_cons, List.sum_cons, hrest]
      simp only [if_true, eq_self_iff_true]
      ring
    · have hne : k0 ≠ k := fun h => hk (h ▸ hmem')
      simp only [List.map_cons, List.sum_cons, if_neg hne, ih hnd' hmem']
      ring

lemma sum_filter_partition {α κ : Type} [DecidableEq κ] (key : α → κ) (f : α → Rat) :
    ∀ (rows : List α) (ks : List κ), ks.Nodup → (∀ r ∈ rows, key r ∈ ks) →
      (ks.map fun k => ((rows.filter fun r => key r = k).map f).sum).sum
        = (rows.map f).sum := by
  intro rows
  induction rows with
  | nil =>
    intro ks _ _
    simp only [List.filter_nil, List.map_nil, List.sum_nil]
    exact List.sum_eq_zero (by simp)
  | cons r rows ih =>
    intro ks hnd hcov
    have hcov' : ∀ a ∈ rows, key a ∈ ks := fun a ha => hcov a (List.mem_cons_of_mem r ha)
    have hkr : key r ∈ ks := hcov r (List.mem_cons_self r rows)
    have hsplit : ∀ k, (((r :: rows).filter fun a => key a = k).map f).sum
        = if key r = k then f r + ((rows.filter fun a => key a = k).map f).sum
          else ((rows.filter fun a => key a = k).map f).sum := by
      intro k
      by_cases h : key r = k
      · simp [List.filter_cons, h]
      · simp [List.filter_cons, h]
    calc (ks.map fun k => (((r :: rows).filter fun a => key a = k).map f).sum).sum
        = (ks.map fun k =>
            if key r = k then f r + ((rows.filter fun a => key a = k).map f).sum
            else ((rows.filter fun a => key a = k).map f).sum).sum := by
          exact congrArg List.sum (List.map_congr_left fun k _ => hsplit k)
      _ = f r + (ks.map fun k => ((rows.filter fun a => key a = k).map f).sum).sum :=
          sum_map_ite (key r) (f r) _ ks hnd hkr
      _ = f r + (rows.map f).sum := by rw [ih ks hnd hcov']
      _ = ((r :: rows).map f).sum := by simp

lemma summarizeByMember_eq (rows : List LedgerRow) :
    summarizeByMember rows
      = sortStable (fun a b => decide (b.amountOwed ≤ a.amountOwed))
          ((sortStable keyLe
              ((rows.filter fun r => r.memberId.isSome).map rowKey).dedup).map fun k =>
            ({ memberName := k.1, memberId := k.2.1, currency := k.2.2
               amountOwed := (((rows.filter fun r => r.memberId.isSome).filter fun r =>
                 rowKey r = k).map (·.amountOwed)).sum }
              : MemberSummary)) := rfl

lemma summary_le_total (a b : MemberSummary) :
    (decide (b.amountOwed ≤ a.amountOwed) || decide (a.amountOwed ≤ b.amountOwed)) = true := by
  rcases le_total b.amountOwed a.amountOwed with h | h <;> simp [h]

lemma summary_le_trans (a b c : MemberSummary)
    (hab : decide (b.amountOwed ≤ a.amountOwed) = true)
    (hbc : decide (c.amountOwed ≤ b.amountOwed) = true) :
    decide (c.amountOwed ≤ a.amountOwed) = true := by
  simp only [decide_eq_true_eq] at *
  exact le_trans hbc hab

lemma filter_key_of_isSome (rows : List LedgerRow) (k : String × Option String × String)
    (hk : k.2.1.isSome = true) :
    ((rows.filter fun r => r.memberId.isSome).filter fun r => rowKey r = k)
      = rows.filter fun r => rowKey r = k := by
  rw [List.filter_filter]
  refine List.filter_congr fun r _ => ?_
  by_cases h : rowKey r = k
  · have hid : r.memberId = k.2.1 := by
      have hp := congrArg (fun t => t.2.1) h
      simpa [rowKey] using hp
    have hsome : r.memberId.isSome = true := by rw [hid]; exact hk
    simp [h, hsome]
  · simp [h]

/-- C5 (amended): the member aggregation groups the member-id-bearing rows of
the ledger by (memberName, memberId, currency) — every summary entry's amount
is the sum of the amounts of exactly the ledger rows bearing its key — the
output is sorted descending by summed amount, and the summary totals sum to
the total over the rows that carry a member id; on ledgers in which every row
carries a member id this is full conservation.  Rows without a member id are
dropped by the groupby (pandas default `dropna=True`), and ties between equal
summed amounts follow the ascending group-key order rather than first-seen
order — the counterexample exhibits both departures from the original claim. -/
theorem C5_summarize_by_member (rows : List LedgerRow) :
    List.Pairwise (fun a b : MemberSummary => b.amountOwed ≤ a.amountOwed)
      (summarizeByMember rows)
    ∧ ((summarizeByMember rows).map (·.amountOwed)).sum
        = ((rows.filter fun r => r.memberId.isSome).map (·.amountOwed)).sum
    ∧ ((∀ r ∈ rows, r.memberId.isSome = true) →
        ((summarizeByMember rows).map (·.amountOwed)).sum = (rows.map (·.amountOwed)).sum)
    ∧ ∀ s ∈ summarizeByMember rows,
        s.amountOwed
          = ((rows.filter fun r =>
              rowKey r = (s.memberName, s.memberId, s.currency)).map (·.amountOwed)).sum := by
  have hkeys_perm := sortStable_perm keyLe
    ((rows.filter fun r => r.memberId.isSome).map rowKey).dedup
  have hnodup : (sortStable keyLe
      ((rows.filter fun r => r.memberId.isSome).map rowKey).dedup).Nodup :=
    hkeys_perm.nodup_iff.mpr (List.nodup_dedup _)
  have hcov : ∀ r ∈ rows.filter fun r => r.memberId.isSome,
      rowKey r ∈ sortStable keyLe
        ((rows.filter fun r => r.memberId.isSome).map rowKey).dedup := by
    intro r hr
    exact hkeys_perm.mem_iff.mpr (List.mem_dedup.mpr (List.mem_map_of_mem rowKey hr))
  have hperm := sortStable_perm (fun a b : MemberSummary => decide (b.amountOwed ≤ a.amountOwed))
    ((sortStable keyLe ((rows.filter fun r => r.memberId.isSome).map rowKey).dedup).map fun k =>
      ({ memberName := k.1, memberId := k.2.1, currency := k.2.2
         amountOwed := (((rows.filter fun r => r.memberId.isSome).filter fun r =>
           rowKey r = k).map (·.amountOwed)).sum }
        : MemberSummary))
  have hcons : ((summarizeByMember rows).map (·.amountOwed)).sum
      = ((rows.filter fun r => r.memberId.isSome).map (·.amountOwed)).sum := by
    rw [summarizeByMember_eq]
    have hsum := (hperm.map (·.amountOwed)).sum_eq
    rw [hsum, List.map_map]
    have hpart := sum_filter_partition rowKey (·.amountOwed)
      (rows.filter fun r => r.memberId.isSome)
      (sortStable keyLe ((rows.filter fun r => r.memberId.isSome).map rowKey).dedup)
      hnodup hcov
    simpa [Function.comp] using hpart
  refine ⟨?_, hcons, ?_, ?_⟩
  · have h := sortStable_pairwise
      (fun a b : MemberSummary => decide (b.amountOwed ≤ a.amountOwed))
      summary_le_total summary_le_trans
      ((sortStable keyLe ((rows.filter fun r => r.memberId.isSome).map rowKey).dedup).map fun k =>
        ({ memberName := k.1, memberId := k.2.1, currency := k.2.2
           amountOwed := (((rows.filter fun r => r.memberId.isSome).filter fun r =>
             rowKey r = k).map (·.amountOwed)).sum }
          : MemberSummary))
    rw [summarizeByMember_eq]
    exact h.imp fun hab => of_decide_eq_true hab
  · intro hall
    rw [hcons, List.filter_eq_self.mpr hall]
  · intro s hs
    rw [summarizeByMember_eq] at hs
    have hs' := hperm.mem_iff.mp hs
    rcases List.mem_map.mp hs' with ⟨k, hk, rfl⟩
    have hkmem : k ∈ ((rows.filter fun r => r.memberId.isSome).map rowKey).dedup :=
      hkeys_perm.mem_iff.mp hk
    rcases List.mem_map.mp (List.mem_dedup.mp hkmem) with ⟨r, hr, hrk⟩
    have hrsome : r.memberId.isSome = true := (List.mem_filter.mp hr).2
    have hksome : k.2.1.isSome = true := by
      have hp := congrArg (fun t => t.2.1) hrk
      simp only [rowKey] at hp
      rw [← hp]; exact hrsome
    have hfk := filter_key_of_isSome rows k hksome
    simp [hfk]

/-- Ledger row of the member first seen in the counterexample ledger. -/
def rowBob : LedgerRow :=
  ⟨"Bob", Option.some "2", "Fee", Option.some "p", 10, "GBP", "UNANSWERED"⟩

/-- Ledger row of the member seen second in the counterexample ledger. -/
def rowAnn : LedgerRow :=
  ⟨"Ann", Option.some "1", "Fee", Option.some "p", 10, "GBP", "UNANSWERED"⟩

/-- A ledger row without a member id, as the reconciliation produces when a
recipient record lacks a `memberId`; the groupby drops it. -/
def rowNoId : LedgerRow :=
  ⟨"Unknown (None)", Option.none, "Fee", Option.some "p", 7, "GBP", "UNANSWERED"⟩

/-- C5 counterexample: (i) on a two-row ledger with equal amounts whose
first-seen group order is Bob then Ann, the summary comes out Ann then Bob
(the groupby emits keys in ascending order before the amount sort), so ties
are NOT kept in first-seen group order as the claim states; (ii) on a ledger
holding one row without a member id, the groupby (pandas default
`dropna=True`) drops the row, the summary totals sum to 0 while the ledger
amounts sum to 7, so conservation fails as universally claimed. -/
theorem C5_counterexample :
    ((summarizeByMember [rowBob, rowAnn]).map fun s => s.memberName) = ["Ann", "Bob"]
    ∧ ¬ ((summarizeByMember [rowBob, rowAnn]).map fun s => s.memberName) = ["Bob", "Ann"]
    ∧ ((summarizeByMember [rowNoId]).map (·.amountOwed)).sum = 0
    ∧ ¬ ((summarizeByMember [rowNoId]).map (·.amountOwed)).sum
          = ([rowNoId].map (·.amountOwed)).sum := by
  have e1 : (decide ("Ann" = "Bob")) = false := rfl
  have e2 : (decide ("1" = "2")) = false := rfl
  have e3 : (decide ("Bob" = "Ann")) = false := rfl
  have e4 : (decide ("2" = "1")) = false := rfl
  have h : ((summarizeByMember [rowBob, rowAnn]).map fun s => s.memberName)
      = ["Ann", "Bob"] := by
    rw [summarizeByMember_eq]
    norm_num [rowBob, rowAnn, rowKey, sortStable, insertStable, keyLe, pyStrLt, lstLt,
      charLtB, List.dedup, List.filter, List.foldl, e1, e2, e3, e4]
  have hz : summarizeByMember [rowNoId] = [] := rfl
  refine ⟨h, by simp [h], by simp [hz], ?_⟩
  rw [hz]
  norm_num [rowNoId]

/-! Fixtures for the query-adapter claims. -/

/-- Member map with the single member John Smith. -/
def mmJohn : List (String × String) := [("123", "John Smith")]

/-- An unpaid recipient owing 2500 pence, belonging to John Smith. -/
def recJohn : Recipient :=
  ⟨"UNANSWERED", Option.some "123", Option.none, [⟨[⟨Option.some 2500⟩]⟩]⟩

/-- A payment titled `Match Fee 2025` whose detail fetch succeeds. -/
def payMatch : Payment := ⟨Option.some "p1", Option.some "Match Fee 2025"⟩

/-- Fetcher returning John Smith's unpaid recipient for `payMatch`. -/
def fetchMatch : Option String → Option PaymentDetail :=
  fun i => if i = Option.some "p1" then Option.some ⟨[recJohn]⟩ else Option.none

/-- The single ledger row the reconciliation produces from `payMatch` under
`fetchMatch`: John Smith owing 25.00 on `Match Fee 2025`. -/
def rowJohn : LedgerRow :=
  ⟨"John Smith", Option.some "123", "Match Fee 2025", Option.some "p1",
   ((2500 : Int) : Rat) / 100, "GBP", "UNANSWERED"⟩

lemma fetchMatch_rows :
    (process_payment_data [payMatch] mmJohn fetchMatch).1 = [rowJohn] := rfl

/-- C6 (bug evidence): on a run whose ledger holds one row of 25.00 for John
Smith, `get_member_payment_summary` reports `total_owed = 0` with the whole
breakdown grouped under `Unknown` with amount 0, because it reads the keys
`Amount` and `Payment Title` while the rows carry `Amount Owed` and
`Payment Name`; the member's ledger row amounts actually sum to 25. -/
theorem C6_total_owed_key_mismatch :
    get_member_payment_summary mmJohn [payMatch] fetchMatch "John Smith"
      = MemberSummaryResult.ok "John Smith" 0 1 [("Unknown", 1, 0)]
    ∧ ((process_payment_data [payMatch] mmJohn fetchMatch).1.map (·.amountOwed)).sum = 25 := by
  constructor
  · have hmatch : (mmJohn.filter fun m =>
        pyContains (lowerStr "John Smith") (lowerStr m.2)) = [("123", "John Smith")] := rfl
    have hid : dictGet rowJohn.toDict "Member ID" PyVal.noneV = PyVal.str "123" := rfl
    have hamt : dictGet rowJohn.toDict "Amount" (PyVal.num 0) = PyVal.num 0 := rfl
    have hpt : dictGet rowJohn.toDict "Payment Title" (PyVal.str "Unknown")
        = PyVal.str "Unknown" := rfl
    simp only [get_member_payment_summary, hmatch, fetchMatch_rows]
    norm_num [List.filter, hid, hamt, hpt, List.isEmpty, pyvalToFloat, pyvalToStr,
      pyRound2, buildPaymentTypes, List.foldl]
  · rw [fetchMatch_rows]
    norm_num [rowJohn]

/-- C7 (bug evidence): with the non-empty title filter `match`, the adapter
returns no rows even though the run's only ledger row is titled
`Match Fee 2025`, which contains the filter case-insensitively — the filter
reads the key `Payment Title` while rows carry `Payment Name`, so the lookup
always yields the empty-string default and every row is excluded. -/
theorem C7_title_filter_key_mismatch :
    get_all_outstanding_payments mmJohn [payMatch] fetchMatch (Option.some "match") 50
      = ⟨[], 0, false⟩
    ∧ ((process_payment_data [payMatch] mmJohn fetchMatch).1.map (·.paymentName))
        = ["Match Fee 2025"]
    ∧ pyContains (lowerStr "match") (lowerStr "Match Fee 2025") = true := by
  refine ⟨rfl, ?_, rfl⟩
  rw [fetchMatch_rows]
  rfl

/-- C8 counterexample: at `limit = 0` (a falsy limit in Python) on a one-row
ledger — which has more rows than the limit — the adapter does NOT return the
first 0 rows with `truncated = true`; it returns the whole ledger untruncated. -/
theorem C8_counterexample :
    0 < ([rowBob] : List LedgerRow).length
    ∧ ¬ ((outstandingFromRows [rowBob] Option.none 0).outstanding_payments
          = (([rowBob] : List LedgerRow).take 0).map formatRow
        ∧ (outstandingFromRows [rowBob] Option.none 0).truncated = true) := by
  constructor
  · simp
  · intro h
    have ht : (outstandingFromRows [rowBob] Option.none 0).truncated = false := rfl
    rw [ht] at h
    exact absurd h.2 (by simp)

/-- C8 (amended): for every POSITIVE limit, a ledger with more rows than the
limit is cut to exactly its first `limit` rows with `truncated = true`, and a
ledger with at most `limit` rows is returned whole with `truncated = false`;
at limit 0 (falsy in Python) no truncation happens at all. -/
theorem C8_limit_truncation (rows : List LedgerRow) (limit : Nat) (hl : 1 ≤ limit) :
    (limit < rows.length →
      outstandingFromRows rows Option.none limit
        = ⟨(rows.take limit).map formatRow, limit, true⟩)
    ∧ (rows.length ≤ limit →
      outstandingFromRows rows Option.none limit
        = ⟨rows.map formatRow, rows.length, false⟩) := by
  constructor
  · intro h
    have hcond : 0 < limit ∧ limit < rows.length := ⟨hl, h⟩
    simp only [outstandingFromRows, if_pos hcond]
    simp [Nat.min_eq_left (le_of_lt h)]
  · intro h
    have hcond : ¬(0 < limit ∧ limit < rows.length) := fun hc => absurd hc.2 (not_lt.mpr h)
    simp only [outstandingFromRows, if_neg hcond]
    simp

/-- Witness for C8 at the spec's own example: limit 1 on a 2-row ledger
returns exactly the first row and reports truncation. -/
theorem C8_limit_truncation_witness :
    outstandingFromRows [rowBob, rowAnn] Option.none 1
      = ⟨([rowBob, rowAnn].take 1).map formatRow, 1, true⟩ :=
  (C8_limit_truncation [rowBob, rowAnn] 1 (by decide)).1 (by decide)

/-- C9: `get_member_payment_summary` with zero matches returns the no-match
error carrying the first 10 member names as examples, and with several matches
returns the ambiguous-match error carrying every matching name; both are
ordinary results of the embedded total function, not faults. -/
theorem C9_member_match_errors (mm : List (String × String)) (payments : List Payment)
    (fetch : Option String → Option PaymentDetail) (pattern : String) :
    ((mm.filter fun m => pyContains (lowerStr pattern) (lowerStr m.2)) = [] →
      get_member_payment_summary mm payments fetch pattern
        = MemberSummaryResult.err_no_match pattern ((mm.map Prod.snd).take 10))
    ∧ (1 < (mm.filter fun m => pyContains (lowerStr pattern) (lowerStr m.2)).length →
      get_member_payment_summary mm payments fetch pattern
        = MemberSummaryResult.err_multiple pattern
            ((mm.filter fun m => pyContains (lowerStr pattern) (lowerStr m.2)).map Prod.snd)) := by
  constructor
  · intro h
    simp only [get_member_payment_summary, h]
  · intro h
    cases hm : mm.filter fun m => pyContains (lowerStr pattern) (lowerStr m.2) with
    | nil => rw [hm] at h; simp at h
    | cons hd tl =>
      rw [hm] at h
      have htl : 0 < tl.length := by simpa using h
      obtain ⟨mid, fn⟩ := hd
      simp only [get_member_payment_summary, hm, htl, if_pos htl, List.map_cons]
      simp

/-- Member map holding two members whose names both contain `John`. -/
def mmJohns : List (String × String) :=
  [("1", "John Smith"), ("2", "Johnny Appleseed")]

/-- Witness for C9: the pattern `John` is ambiguous between John Smith and
Johnny Appleseed and yields the error naming both; the pattern `Zed` matches
nobody and yields the no-match error listing the two names as examples. -/
theorem C9_member_match_errors_witness :
    (1 < (mmJohns.filter fun m => pyContains (lowerStr "John") (lowerStr m.2)).length
      ∧ get_member_payment_summary mmJohns [] noFetch "John"
        = MemberSummaryResult.err_multiple "John" ["John Smith", "Johnny Appleseed"])
    ∧ ((mmJohns.filter fun m => pyContains (lowerStr "Zed") (lowerStr m.2)) = []
      ∧ get_member_payment_summary mmJohns [] noFetch "Zed"
        = MemberSummaryResult.err_no_match "Zed" ["John Smith", "Johnny Appleseed"]) := by
  constructor
  · refine ⟨by decide, ?_⟩
    have h := (C9_member_match_errors mmJohns [] noFetch "John").2 (by decide)
    rw [h]; rfl
  · refine ⟨by decide, ?_⟩
    have h := (C9_member_match_errors mmJohns [] noFetch "Zed").1 (by decide)
    rw [h]; rfl

lemma containsLst_nil_left (l : List Char) : containsLst [] l = true := by
  cases l <;> simp [containsLst, isPrefixLst, List.isEmpty]

/-- C10: `search_members` returns exactly the entries whose lower-cased name
contains the lower-cased query, with `total_matches` the count of matches; the
empty query matches every entry, so it returns the whole member index. -/
theorem C10_search_members_substring (mm : List (String × String)) (q : String)
    (entry : String × String) :
    (search_members mm "").1 = mm
    ∧ (search_members mm "").2 = mm.length
    ∧ (entry ∈ (search_members mm q).1
        ↔ entry ∈ mm ∧ pyContains (lowerStr q) (lowerStr entry.2) = true) := by
  have hfull : (mm.filter fun m => pyContains (lowerStr "") (lowerStr m.2)) = mm := by
    refine List.filter_eq_self.mpr fun a _ => ?_
    show pyContains (lowerStr "") (lowerStr a.2) = true
    exact containsLst_nil_left _
  refine ⟨?_, ?_, ?_⟩
  · simp only [search_members, hfull]
  · simp only [search_members, hfull]
  · simp only [search_members, List.mem_filter]

/-- Witness for C1 at a concrete one-payment run. -/
theorem C1_ledger_rows_iff_unanswered_witness :
    (∀ row ∈ (process_payment_data [payMatch] mmJohn fetchMatch Option.none).1,
      row.status = "UNANSWERED")
    ∧ (process_payment_data [payMatch] mmJohn fetchMatch Option.none).2.total_unpaid_items
        = (process_payment_data [payMatch] mmJohn fetchMatch Option.none).1.length
    ∧ (process_payment_data [payMatch] mmJohn fetchMatch Option.none).1.length
        = ([payMatch].map (specUnansweredCount fetchMatch Option.none)).sum :=
  C1_ledger_rows_iff_unanswered [payMatch] mmJohn fetchMatch Option.none

/-- Witness for C2: the two concrete amount extractions of the spec. -/
theorem C2_amount_extraction_witness :
    (mkRow [] "t" Option.none
      ⟨"UNANSWERED", Option.none, Option.none, [⟨[⟨Option.some 2500⟩]⟩]⟩).amountOwed = 25
    ∧ (mkRow [] "t" Option.none
      ⟨"UNANSWERED", Option.none, Option.none, []⟩).amountOwed = 0 :=
  ⟨C2_amount_extraction.2.1, C2_amount_extraction.2.2⟩

/-- Witness for C5 at the two-row concrete ledger, whose rows all carry a
member id, discharging the hypothesis of the full-conservation part. -/
theorem C5_summarize_by_member_witness :
    List.Pairwise (fun a b : MemberSummary => b.amountOwed ≤ a.amountOwed)
      (summarizeByMember [rowBob, rowAnn])
    ∧ (∀ r ∈ ([rowBob, rowAnn] : List LedgerRow), r.memberId.isSome = true)
    ∧ ((summarizeByMember [rowBob, rowAnn]).map (·.amountOwed)).sum
        = ([rowBob, rowAnn].map (·.amountOwed)).sum
    ∧ ∀ s ∈ summarizeByMember [rowBob, rowAnn],
        s.amountOwed
          = (([rowBob, rowAnn].filter fun r =>
              rowKey r = (s.memberName, s.memberId, s.currency)).map (·.amountOwed)).sum :=
  ⟨(C5_summarize_by_member [rowBob, rowAnn]).1,
   by decide,
   (C5_summarize_by_member [rowBob, rowAnn]).2.2.1 (by decide),
   (C5_summarize_by_member [rowBob, rowAnn]).2.2.2⟩

/-- Witness for C10 at a concrete index, query and entry. -/
theorem C10_search_members_substring_witness :
    (search_members mmJohns "").1 = mmJohns
    ∧ (search_members mmJohns "").2 = mmJohns.length
    ∧ (("2", "Johnny Appleseed") ∈ (search_members mmJohns "John").1
        ↔ ("2", "Johnny Appleseed") ∈ mmJohns
          ∧ pyContains (lowerStr "John") (lowerStr ("2", "Johnny Appleseed").2) = true) :=
  C10_search_members_substring mmJohns "John" ("2", "Johnny Appleseed")
